import Mathlib

/-!
Verification of the audio-to-feature pipeline implemented in
`services/avatar-service/src/core/tts/audio_processor.py`.

Modelling conventions:
* Audio samples are modelled as exact rationals (`ℚ`) standing for the
  Python floats (the claims under study are structural / exact-arithmetic
  facts, not rounding facts).
* The external libraries are modelled as explicit function parameters:
  `soundfile.read` becomes a decoder argument returning
  `Except PyErr (RawAudio × Nat)`, `resampy.resample` a total function
  argument, and `librosa.feature.melspectrogram` a function argument whose
  documented output-shape contract (`MelShapeContract`) is assumed where a
  theorem needs it.
* Python exceptions are modelled with `Except PyErr`; methods on the
  stateful `AudioProcessor` object become state-passing functions.
-/

namespace AudioPipeline

/-- Python exceptions that can surface from the pipeline code or the
decoder library. -/
inductive PyErr where
  | libsndfileError (msg : String)
  | runtimeError (msg : String)
  | valueError (msg : String)
  | assertionError (msg : String)
  | attributeError (msg : String)
deriving DecidableEq

/-- Result of a decoder call such as `sf.read`: a mono signal is a 1-D
array of samples, a multi-channel signal a 2-D array of shape
(num_frames, channels), here a list of per-frame channel rows. -/
inductive RawAudio where
  | mono (samples : List ℚ)
  | multi (samples : List (List ℚ))
deriving DecidableEq

/-- State of an `AudioProcessor` object (`__init__`, audio_processor.py
lines 18-46).  `originalSampleRate` is `none` until a load method sets it
(in Python the attribute simply does not exist before then, and reading it
raises `AttributeError`). -/
structure AudioProcessor where
  targetSampleRate : Nat
  chunkDurationMs : Nat
  melBands : Nat
  chunkSize : Nat
  hopLength : Nat
  rawAudio : Option RawAudio
  originalSampleRate : Option Nat
  processedAudio : Option (List ℚ)
  audioChunks : Option (List (List ℚ))
  melFeatures : Option (List (List (List ℚ)))
deriving DecidableEq

/-- Constructor `AudioProcessor.__init__` (lines 18-46):
`chunk_size = int(target_sample_rate * chunk_duration_ms / 1000)` and
`hop_length = int(chunk_size / 2)`; all pipeline state starts unset. -/
def AudioProcessor.init (targetSampleRate chunkDurationMs melBands : Nat) :
    AudioProcessor where
  targetSampleRate := targetSampleRate
  chunkDurationMs := chunkDurationMs
  melBands := melBands
  chunkSize := targetSampleRate * chunkDurationMs / 1000
  hopLength := targetSampleRate * chunkDurationMs / 1000 / 2
  rawAudio := none
  originalSampleRate := none
  processedAudio := none
  audioChunks := none
  melFeatures := none

/-- Factory `create_audio_processor` (lines 281-283): default Wav2Lip
settings 16000 Hz, 20 ms chunks, 80 mel bands. -/
def create_audio_processor : AudioProcessor :=
  AudioProcessor.init 16000 20 80

/-- Method `load_from_binary` (lines 48-66): decode the byte blob with
`sf.read`; on success store the samples and the native sample rate, on
failure log and re-raise the decoder's exception unchanged. -/
def AudioProcessor.load_from_binary
    (p : AudioProcessor)
    (sfRead : List UInt8 → Except PyErr (RawAudio × Nat))
    (audioBinary : List UInt8) : Except PyErr AudioProcessor :=
  match sfRead audioBinary with
  | .ok (a, sr) =>
      .ok { p with rawAudio := some a, originalSampleRate := some sr }
  | .error e => .error e

/-- Method `load_from_file` (lines 68-81): same as `load_from_binary` but
reading from a file path. -/
def AudioProcessor.load_from_file
    (p : AudioProcessor)
    (sfReadFile : String → Except PyErr (RawAudio × Nat))
    (filePath : String) : Except PyErr AudioProcessor :=
  match sfReadFile filePath with
  | .ok (a, sr) =>
      .ok { p with rawAudio := some a, originalSampleRate := some sr }
  | .error e => .error e

/-- Lines 95-98 of `preprocess`: `if audio.ndim > 1: audio = np.mean(audio,
axis=1)` — a multi-channel array is downmixed to mono by the per-frame
arithmetic mean over the channel row; a 1-D array is left as-is. -/
def toMonoIfStereo : RawAudio → List ℚ
  | .mono s => s
  | .multi rows => rows.map fun row => row.sum / (row.length : ℚ)

/-- Method `preprocess` (lines 83-118): requires loaded raw audio
(else `RuntimeError`), downmixes to mono, and resamples with
`resampy.resample` only when the original rate differs from the target
rate.  `resample` is the external resampler, passed as a parameter. -/
def AudioProcessor.preprocess
    (p : AudioProcessor)
    (resample : List ℚ → Nat → Nat → List ℚ) : Except PyErr AudioProcessor :=
  match p.rawAudio with
  | none =>
      .error (.runtimeError
        "No audio loaded. Call load_from_binary() or load_from_file() first.")
  | some raw =>
    match p.originalSampleRate with
    | none => .error (.attributeError "original_sample_rate")
    | some osr =>
      let a := toMonoIfStereo raw
      let a := if osr ≠ p.targetSampleRate
               then resample a osr p.targetSampleRate else a
      .ok { p with processedAudio := some a }

/-- Lines 134-142 of `chunk_audio`: a slice of exactly `chunk_size`
samples is kept as-is, a shorter final slice is right-padded with zeros
via `np.pad(chunk, (0, chunk_size - len(chunk)), "constant")`. -/
def padChunk (cs : Nat) (chunk : List ℚ) : List ℚ :=
  if chunk.length = cs then chunk
  else chunk ++ List.replicate (cs - chunk.length) 0

/-- Loop of `chunk_audio` (lines 131-142): `for i in range(0, len(audio),
chunk_size)` take the slice `audio[i : i + chunk_size]` and pad the final
short slice.  The loop is driven by a fuel argument (`a.length` suffices
whenever `0 < cs`) so that the definition is structurally recursive. -/
def chunkLoop (cs : Nat) : Nat → List ℚ → List (List ℚ)
  | _, [] => []
  | 0, _ :: _ => []
  | fuel + 1, x :: xs =>
      padChunk cs ((x :: xs).take cs) :: chunkLoop cs fuel ((x :: xs).drop cs)

/-- Chunking of a whole signal: the loop of `chunk_audio` run to
completion. -/
def chunkList (a : List ℚ) (cs : Nat) : List (List ℚ) :=
  chunkLoop cs a.length a

/-- Method `chunk_audio` (lines 120-148): requires processed audio (else
`RuntimeError`); `range` with step 0 raises `ValueError` in Python, which
the method re-raises; otherwise the chunk list is stored. -/
def AudioProcessor.chunk_audio (p : AudioProcessor) :
    Except PyErr AudioProcessor :=
  match p.processedAudio with
  | none => .error (.runtimeError "No processed audio. Call preprocess() first.")
  | some a =>
    if p.chunkSize = 0 then .error (.valueError "range() arg 3 must not be zero")
    else .ok { p with audioChunks := some (chunkList a p.chunkSize) }

/-- Additive floor used in `np.log(mel_spec + 1e-8)` (line 205). -/
def melEps : ℚ := 1 / 100000000

/-- Time-axis shape correction of `_chunk_to_mel_spectrogram` (lines
207-212): with fewer than 4 STFT columns, pad on the right by
edge-replication (`np.pad(..., mode="edge")` repeats each row's last
entry); with more than 4, truncate to the first 4 columns. -/
def fixTimeSteps (mel : List (List ℚ)) : List (List ℚ) :=
  let cols := (mel.headD []).length
  if cols < 4 then
    mel.map fun row => row ++ List.replicate (4 - cols) (row.getLastD 0)
  else if 4 < cols then
    mel.map fun row => row.take 4
  else
    mel

/-- The documented output-shape contract of
`librosa.feature.melspectrogram` with `center=True`: the result has
`n_mels` rows and `1 + len(y) // hop_length` columns. -/
def MelShapeContract (melspec : List ℚ → List (List ℚ))
    (nMels hop : Nat) : Prop :=
  ∀ y, (melspec y).length = nMels ∧
    ∀ row ∈ melspec y, row.length = 1 + y.length / hop

/-- Lines 183-189 of `_chunk_to_mel_spectrogram`: defensively zero-pad a
short chunk, or truncate a long one, to exactly `chunk_size` samples. -/
def ensureChunkLength (cs : Nat) (audioChunk : List ℚ) : List ℚ :=
  if audioChunk.length < cs then
    audioChunk ++ List.replicate (cs - audioChunk.length) 0
  else if cs < audioChunk.length then
    audioChunk.take cs
  else audioChunk

/-- Method `_chunk_to_mel_spectrogram` (lines 173-218): correct the chunk
length, run the external mel-spectrogram (`melspec`), apply
`np.log(mel + 1e-8)` elementwise (`logQ` models the external natural
log), correct the time axis to 4 columns, and assert the final shape is
`(mel_bands, 4)`. -/
def AudioProcessor.chunk_to_mel_spectrogram
    (p : AudioProcessor)
    (melspec : List ℚ → List (List ℚ)) (logQ : ℚ → ℚ)
    (audioChunk : List ℚ) : Except PyErr (List (List ℚ)) :=
  let mel := fixTimeSteps
    ((melspec (ensureChunkLength p.chunkSize audioChunk)).map
      (List.map fun x => logQ (x + melEps)))
  if mel.length = p.melBands ∧ (mel.headD []).length = 4 then .ok mel
  else .error (.assertionError "Expected (mel_bands, 4) shape")

/-- Loop of `generate_mel_spectrograms` (lines 158-167): featurize each
chunk in order, stopping at the first exception. -/
def melLoop (f : List ℚ → Except PyErr (List (List ℚ))) :
    List (List ℚ) → Except PyErr (List (List (List ℚ)))
  | [] => .ok []
  | c :: rest =>
    match f c with
    | .error e => .error e
    | .ok m =>
      match melLoop f rest with
      | .error e => .error e
      | .ok ms => .ok (m :: ms)

/-- Method `generate_mel_spectrograms` (lines 150-171): requires audio
chunks (else `RuntimeError`); maps the featurizer over all chunks. -/
def AudioProcessor.generate_mel_spectrograms
    (p : AudioProcessor)
    (melspec : List ℚ → List (List ℚ)) (logQ : ℚ → ℚ) :
    Except PyErr AudioProcessor :=
  match p.audioChunks with
  | none => .error (.runtimeError "No audio chunks. Call chunk_audio() first.")
  | some chunks =>
    match melLoop (p.chunk_to_mel_spectrogram melspec logQ) chunks with
    | .error e => .error e
    | .ok ms => .ok { p with melFeatures := some ms }

/-- Property `mel_features` (lines 245-252): raises `RuntimeError` when
mel features have not been generated. -/
def AudioProcessor.mel_features (p : AudioProcessor) :
    Except PyErr (List (List (List ℚ))) :=
  match p.melFeatures with
  | none =>
      .error (.runtimeError
        "No mel features generated. Run the processing pipeline first.")
  | some ms => .ok ms

/-- Property `audio_chunks` (lines 254-259): raises `RuntimeError` when
chunking has not run. -/
def AudioProcessor.audio_chunks (p : AudioProcessor) :
    Except PyErr (List (List ℚ)) :=
  match p.audioChunks with
  | none =>
      .error (.runtimeError "No audio chunks generated. Call chunk_audio() first.")
  | some cs => .ok cs

/-- Property `processed_audio` (lines 261-266): raises `RuntimeError`
when preprocessing has not run. -/
def AudioProcessor.processed_audio (p : AudioProcessor) :
    Except PyErr (List ℚ) :=
  match p.processedAudio with
  | none => .error (.runtimeError "No processed audio. Call preprocess() first.")
  | some a => .ok a

/-- Property `duration_seconds` (lines 268-273): total — returns 0.0 when
no processed audio exists, else `len(processed) / target_sample_rate`
(float division, modelled exactly in ℚ; the target rate is positive in
every constructible configuration of interest). -/
def AudioProcessor.duration_seconds (p : AudioProcessor) : ℚ :=
  match p.processedAudio with
  | none => 0
  | some a => (a.length : ℚ) / (p.targetSampleRate : ℚ)

/-! Helper lemmas about list indexing with `List.getD`. -/

theorem getD_eq_zero_of_le (l : List ℚ) (j : Nat) (h : l.length ≤ j) :
    l.getD j 0 = 0 := by
  induction l generalizing j with
  | nil => simp [List.getD]
  | cons x xs ih =>
    cases j with
    | zero => simp at h
    | succ j => simpa using ih j (by simpa using h)

theorem getD_append_left (l l' : List ℚ) (j : Nat) (h : j < l.length) :
    (l ++ l').getD j 0 = l.getD j 0 := by
  induction l generalizing j with
  | nil => simp at h
  | cons x xs ih =>
    cases j with
    | zero => simp
    | succ j => simpa using ih j (by simpa using h)

theorem getD_append_right (l l' : List ℚ) (j : Nat) (h : l.length ≤ j) :
    (l ++ l').getD j 0 = l'.getD (j - l.length) 0 := by
  induction l generalizing j with
  | nil => simp
  | cons x xs ih =>
    cases j with
    | zero => simp at h
    | succ j => simpa using ih j (by simpa using h)

theorem getD_replicate_zero (n j : Nat) :
    (List.replicate n (0 : ℚ)).getD j 0 = 0 := by
  induction n generalizing j with
  | zero => simp [List.getD]
  | succ n ih =>
    cases j with
    | zero => simp [List.replicate]
    | succ j =>
      rw [List.replicate, List.getD_cons_succ]
      exact ih j

theorem getD_take (l : List ℚ) (n j : Nat) (h : j < n) :
    (l.take n).getD j 0 = l.getD j 0 := by
  induction l generalizing n j with
  | nil => simp
  | cons x xs ih =>
    cases n with
    | zero => simp at h
    | succ n =>
      cases j with
      | zero => simp
      | succ j => simpa using ih n j (by omega)

theorem getD_drop (l : List ℚ) (k j : Nat) :
    (l.drop k).getD j 0 = l.getD (k + j) 0 := by
  induction l generalizing k with
  | nil => simp
  | cons x xs ih =>
    cases k with
    | zero => simp
    | succ k =>
      have h1 : k + 1 + j = (k + j) + 1 := by omega
      rw [List.drop_succ_cons, h1, List.getD_cons_succ]
      exact ih k

/-! Lemmas about the chunker loop. -/

theorem chunkLoop_nil (cs fuel : Nat) : chunkLoop cs fuel [] = [] := by
  cases fuel <;> rfl

theorem chunkLoop_cons (cs fuel : Nat) (x : ℚ) (xs : List ℚ) :
    chunkLoop cs (fuel + 1) (x :: xs) =
      padChunk cs ((x :: xs).take cs) ::
        chunkLoop cs fuel ((x :: xs).drop cs) := rfl

theorem padChunk_length (cs : Nat) (c : List ℚ) (h : c.length ≤ cs) :
    (padChunk cs c).length = cs := by
  unfold padChunk
  split
  · assumption
  · simp; omega

theorem chunkLoop_frame_length (cs fuel : Nat) (a : List ℚ) :
    ∀ f ∈ chunkLoop cs fuel a, f.length = cs := by
  induction fuel generalizing a with
  | zero =>
    cases a <;> simp [chunkLoop]
  | succ n ih =>
    cases a with
    | nil => simp [chunkLoop]
    | cons x xs =>
      intro f hf
      rw [chunkLoop_cons, List.mem_cons] at hf
      rcases hf with hf | hf
      · rw [hf]
        exact padChunk_length _ _ (by simp)
      · exact ih _ f hf

theorem chunkLoop_length (cs : Nat) (hcs : 0 < cs) :
    ∀ (fuel : Nat) (a : List ℚ), a.length ≤ fuel →
      (chunkLoop cs fuel a).length = (a.length + cs - 1) / cs := by
  intro fuel
  induction fuel with
  | zero =>
    intro a ha
    have ha0 : a = [] := List.eq_nil_of_length_eq_zero (by omega)
    subst ha0
    rw [chunkLoop_nil]
    simp only [List.length_nil]
    exact (Nat.div_eq_of_lt (by omega)).symm
  | succ n ih =>
    intro a ha
    cases a with
    | nil =>
      rw [chunkLoop_nil]
      simp only [List.length_nil]
      exact (Nat.div_eq_of_lt (by omega)).symm
    | cons x xs =>
      rw [chunkLoop_cons]
      have hdrop : ((x :: xs).drop cs).length ≤ n := by
        simp only [List.length_drop, List.length_cons]
        simp only [List.length_cons] at ha
        omega
      rw [List.length_cons, ih _ hdrop]
      simp only [List.length_drop, List.length_cons]
      set m := xs.length + 1 with hm
      by_cases hle : cs ≤ m
      · have h1 : m - cs + cs - 1 = m - 1 := by omega
        have h2 : m + cs - 1 = (m - 1) + cs := by omega
        rw [h1, h2, Nat.add_div_right _ hcs]
      · have h1 : m - cs + cs - 1 = cs - 1 := by omega
        have h2 : m + cs - 1 = (m - 1) + cs := by omega
        rw [h1, h2, Nat.add_div_right _ hcs,
          Nat.div_eq_of_lt (by omega : cs - 1 < cs),
          Nat.div_eq_of_lt (by omega : m - 1 < cs)]

theorem chunkLoop_getD (cs : Nat) (hcs : 0 < cs) :
    ∀ (fuel : Nat) (a : List ℚ) (i : Nat), a.length ≤ fuel →
      i < (chunkLoop cs fuel a).length →
      (chunkLoop cs fuel a).getD i [] =
        padChunk cs ((a.drop (i * cs)).take cs) := by
  intro fuel
  induction fuel with
  | zero =>
    intro a i ha hi
    have : a = [] := List.eq_nil_of_length_eq_zero (by omega)
    subst this
    simp [chunkLoop_nil] at hi
  | succ n ih =>
    intro a i ha hi
    cases a with
    | nil => simp [chunkLoop_nil] at hi
    | cons x xs =>
      rw [chunkLoop_cons] at hi ⊢
      cases i with
      | zero => simp
      | succ k =>
        have hdrop : ((x :: xs).drop cs).length ≤ n := by
          simp only [List.length_drop, List.length_cons]
          simp only [List.length_cons] at ha
          omega
        have hk : k < (chunkLoop cs n ((x :: xs).drop cs)).length := by
          simpa using hi
        have hrec := ih ((x :: xs).drop cs) k hdrop hk
        simp only [List.getD_cons_succ]
        rw [hrec, List.drop_drop]
        have harith : cs + k * cs = (k + 1) * cs := by ring
        rw [harith]

theorem padTake_getD (cs k j : Nat) (hj : j < cs) (l : List ℚ) :
    (padChunk cs ((l.drop k).take cs)).getD j 0 = l.getD (k + j) 0 := by
  unfold padChunk
  split
  case isTrue h =>
    rw [getD_take _ _ _ hj, getD_drop]
  case isFalse h =>
    have hlen : ((l.drop k).take cs).length = min cs (l.length - k) := by
      simp
    by_cases hjt : j < ((l.drop k).take cs).length
    · rw [getD_append_left _ _ _ hjt, getD_take _ _ _ hj, getD_drop]
    · rw [getD_append_right _ _ _ (by omega), getD_replicate_zero]
      have : l.length ≤ k + j := by
        rw [hlen] at hjt
        omega
      rw [getD_eq_zero_of_le _ _ this]

/-! Lemmas about the featurizer. -/

theorem fixTimeSteps_shape (m : List (List ℚ)) (c : Nat) (hc : 0 < c)
    (hrect : ∀ row ∈ m, row.length = c) :
    (fixTimeSteps m).length = m.length ∧
      ∀ row ∈ fixTimeSteps m, row.length = 4 := by
  cases m with
  | nil =>
    constructor
    · cases h4 : fixTimeSteps [] <;> simp_all [fixTimeSteps]
    · intro row hrow
      simp [fixTimeSteps] at hrow
  | cons r rs =>
    have hr : r.length = c := hrect r (by simp)
    have hcols : ((r :: rs).headD []).length = c := by simpa using hr
    unfold fixTimeSteps
    rw [hcols]
    by_cases h1 : c < 4
    · rw [if_pos h1]
      refine ⟨by simp, ?_⟩
      intro row hrow
      rw [List.mem_map] at hrow
      obtain ⟨row0, hmem, rfl⟩ := hrow
      have := hrect row0 hmem
      simp [this]
      omega
    · rw [if_neg h1]
      by_cases h2 : 4 < c
      · rw [if_pos h2]
        refine ⟨by simp, ?_⟩
        intro row hrow
        rw [List.mem_map] at hrow
        obtain ⟨row0, hmem, rfl⟩ := hrow
        have := hrect row0 hmem
        simp [this]
        omega
      · rw [if_neg h2]
        exact ⟨rfl, fun row hrow => by rw [hrect row hrow]; omega⟩

theorem chunk_to_mel_error_is_assertion
    (p : AudioProcessor) (melspec : List ℚ → List (List ℚ)) (logQ : ℚ → ℚ)
    (c : List ℚ) (e : PyErr)
    (h : p.chunk_to_mel_spectrogram melspec logQ c = .error e) :
    ∃ s, e = PyErr.assertionError s := by
  unfold AudioProcessor.chunk_to_mel_spectrogram at h
  dsimp only [] at h
  split at h
  · exact absurd h (by simp)
  · exact ⟨_, (Except.error.injEq _ _).mp h.symm⟩

theorem melLoop_error_mem (f : List ℚ → Except PyErr (List (List ℚ)))
    (l : List (List ℚ)) (e : PyErr) (h : melLoop f l = .error e) :
    ∃ c ∈ l, f c = .error e := by
  induction l with
  | nil => exact absurd h (by simp [melLoop])
  | cons c rest ih =>
    unfold melLoop at h
    cases hc : f c with
    | error e0 =>
      rw [hc] at h
      exact ⟨c, by simp, by rw [hc, (Except.error.injEq _ _).mp h]⟩
    | ok m =>
      rw [hc] at h
      cases hrest : melLoop f rest with
      | error e1 =>
        rw [hrest] at h
        obtain rfl : e1 = e := (Except.error.injEq _ _).mp h
        obtain ⟨c1, hmem, hc1⟩ := ih hrest
        exact ⟨c1, by simp [hmem], hc1⟩
      | ok ms =>
        rw [hrest] at h
        exact absurd h (by simp)

theorem getD_map_mean (rows : List (List ℚ)) (i : Nat) (hi : i < rows.length) :
    (rows.map fun row => row.sum / (row.length : ℚ)).getD i 0 =
      (rows.getD i []).sum / ((rows.getD i []).length : ℚ) := by
  induction rows generalizing i with
  | nil => simp at hi
  | cons r rs ih =>
    cases i with
    | zero => simp
    | succ i =>
      simp only [List.map_cons, List.getD_cons_succ]
      exact ih i (by simpa using hi)

/-- C1: for every input frame, of any length and any content, the
featurizer `_chunk_to_mel_spectrogram` returns a tile of shape exactly
`(mel_bands, target_time_steps)` — canonically `(80, 4)` — and its
internal shape assertion never fails, given librosa's documented
output-shape contract and a positive hop length and mel-band count. -/
theorem featurize_shape_ok
    (p : AudioProcessor) (melspec : List ℚ → List (List ℚ)) (logQ : ℚ → ℚ)
    (hcontract : MelShapeContract melspec p.melBands p.hopLength)
    (hmb : 0 < p.melBands) (chunk : List ℚ) :
    ∃ m, p.chunk_to_mel_spectrogram melspec logQ chunk = .ok m ∧
      m.length = p.melBands ∧ ∀ row ∈ m, row.length = 4 := by
  obtain ⟨hlen, hrows⟩ := hcontract (ensureChunkLength p.chunkSize chunk)
  set y := ensureChunkLength p.chunkSize chunk with hy
  set c0 := 1 + y.length / p.hopLength with hc0
  set mel2 := (melspec y).map (List.map fun x => logQ (x + melEps)) with hmel2
  have hrect2 : ∀ row ∈ mel2, row.length = c0 := by
    intro row hrow
    rw [hmel2, List.mem_map] at hrow
    obtain ⟨r0, hmem, rfl⟩ := hrow
    simp [hrows r0 hmem]
  have hlen2 : mel2.length = p.melBands := by
    rw [hmel2, List.length_map, hlen]
  obtain ⟨hfl, hfr⟩ := fixTimeSteps_shape mel2 c0
    (by rw [hc0]; exact Nat.le_add_right 1 _) hrect2
  have hne : fixTimeSteps mel2 ≠ [] := by
    intro hnil
    rw [hnil] at hfl
    rw [hlen2] at hfl
    simp at hfl
    omega
  have hhead : ((fixTimeSteps mel2).headD []).length = 4 := by
    cases hft : fixTimeSteps mel2 with
    | nil => exact absurd hft hne
    | cons r rs =>
      have : r ∈ fixTimeSteps mel2 := by rw [hft]; simp
      simpa using hfr r this
  refine ⟨fixTimeSteps mel2, ?_, by rw [hfl, hlen2], hfr⟩
  unfold AudioProcessor.chunk_to_mel_spectrogram
  dsimp only []
  rw [← hy, ← hmel2, if_pos ⟨by rw [hfl, hlen2], hhead⟩]

theorem featurize_shape_ok_witness :
    ∃ m, create_audio_processor.chunk_to_mel_spectrogram
        (fun y => List.replicate 80 (List.replicate (1 + y.length / 160) 0))
        (fun x => x) (List.replicate 7 (0 : ℚ)) = .ok m ∧
      m.length = create_audio_processor.melBands ∧ ∀ row ∈ m, row.length = 4 :=
  featurize_shape_ok create_audio_processor
    (fun y => List.replicate 80 (List.replicate (1 + y.length / 160) 0))
    (fun x => x)
    (by
      intro y
      refine ⟨by simp [create_audio_processor, AudioProcessor.init], ?_⟩
      intro row hrow
      rw [List.eq_of_mem_replicate hrow]
      simp [create_audio_processor, AudioProcessor.init])
    (by decide) (List.replicate 7 (0 : ℚ))

/-- C2: for every normalized signal, `chunk_audio` splits it into
non-overlapping consecutive windows starting at offset 0; every output
frame has length exactly `chunk_size`; frame `i`, position `j` holds
input sample `i * chunk_size + j` whenever that index is in range and 0
(the right zero-padding) otherwise; and every input sample lands in some
frame. -/
theorem chunk_frames_exact (a : List ℚ) (cs : Nat) (hcs : 0 < cs) :
    (∀ f ∈ chunkList a cs, f.length = cs) ∧
    (∀ i j, i < (chunkList a cs).length → j < cs →
      ((chunkList a cs).getD i []).getD j 0 = a.getD (i * cs + j) 0) ∧
    (∀ k, k < a.length → k / cs < (chunkList a cs).length) := by
  refine ⟨chunkLoop_frame_length cs a.length a, ?_, ?_⟩
  · intro i j hi hj
    rw [chunkList] at hi ⊢
    rw [chunkLoop_getD cs hcs a.length a i le_rfl hi,
      padTake_getD cs (i * cs) j hj]
  · intro k hk
    rw [chunkList, chunkLoop_length cs hcs a.length a le_rfl]
    have h1 : a.length + cs - 1 = (a.length - 1) + cs := by omega
    rw [h1, Nat.add_div_right _ hcs]
    have h2 : k / cs ≤ (a.length - 1) / cs := Nat.div_le_div_right (by omega)
    omega

theorem chunk_frames_exact_witness :
    ((chunkList [(5 : ℚ), 6, 7] 2).getD 1 []).getD 1 0 =
      [(5 : ℚ), 6, 7].getD 3 0 :=
  (chunk_frames_exact [(5 : ℚ), 6, 7] 2 (by decide)).2.1 1 1
    (by decide) (by decide)

/-- C3: for every non-empty normalized signal, the number of frames
equals `ceil(len / chunk_size)`; in particular 16010 samples with
chunk_size 320 yield 51 frames, and the 51st frame holds the final 10
real samples followed by 310 zeros. -/
theorem chunk_count_ceil (a : List ℚ) (cs : Nat) (hcs : 0 < cs)
    (_hne : a ≠ []) :
    (chunkList a cs).length = (a.length + cs - 1) / cs ∧
    (a.length = 16010 → cs = 320 →
      (chunkList a cs).length = 51 ∧
      (chunkList a cs).getD 50 [] = a.drop 16000 ++ List.replicate 310 0) := by
  have hlen := chunkLoop_length cs hcs a.length a le_rfl
  refine ⟨hlen, ?_⟩
  rintro h16 rfl
  have hl : (chunkList a 320).length = 51 := by
    rw [chunkList, hlen, h16]
  refine ⟨hl, ?_⟩
  rw [chunkList] at hl ⊢
  rw [chunkLoop_getD 320 (by omega) a.length a 50 le_rfl (by omega)]
  have hd : (a.drop 16000).length = 10 := by simp [h16]
  have ht : (a.drop 16000).take 320 = a.drop 16000 :=
    List.take_of_length_le (by omega)
  rw [show 50 * 320 = 16000 by norm_num, ht]
  unfold padChunk
  rw [if_neg (by omega), hd]

theorem chunk_count_ceil_witness :
    (chunkList (List.replicate 16010 (1 : ℚ)) 320).length = 51 :=
  ((chunk_count_ceil (List.replicate 16010 (1 : ℚ)) 320 (by decide)
      (by rw [← List.length_pos, List.length_replicate]; omega)).2
    (List.length_replicate 16010 1) rfl).1

/-- C4: in the featurizer's time-axis shape correction, a tile with fewer
STFT columns than 4 is padded by edge-replication (every added entry of a
row repeats that row's last entry), not by zeros; a tile with more
columns is truncated to its first 4 columns. -/
theorem fix_time_steps_policy (m : List (List ℚ)) (c : Nat) (_hc : 0 < c)
    (hrect : ∀ row ∈ m, row.length = c) :
    (c < 4 → fixTimeSteps m =
      m.map fun row => row ++ List.replicate (4 - c) (row.getLastD 0)) ∧
    (4 < c → fixTimeSteps m = m.map fun row => row.take 4) := by
  cases m with
  | nil =>
    constructor <;> intro h <;> simp [fixTimeSteps]
  | cons r rs =>
    have hcols : ((r :: rs).headD []).length = c := by
      simpa using hrect r (by simp)
    constructor
    · intro h4
      unfold fixTimeSteps
      dsimp only []
      rw [hcols, if_pos h4]
    · intro h4
      unfold fixTimeSteps
      dsimp only []
      rw [hcols, if_neg (by omega), if_pos h4]

theorem fix_time_steps_policy_witness :
    fixTimeSteps [[(1 : ℚ), 2, 3]] = [[(1 : ℚ), 2, 3, 3]] := by
  have h := (fix_time_steps_policy [[(1 : ℚ), 2, 3]] 3 (by decide)
    (by decide)).1 (by decide)
  rw [h]
  rfl

/-- C5: when the loader (`load_from_binary` or `load_from_file`) is given
a source the decoder cannot parse as audio, the load fails and the error
it fails with is exactly the decoder's original failure — the decode
error surfaces to the caller with the original failure as its content. -/
theorem loader_propagates_decode_failure
    (p : AudioProcessor)
    (sfRead : List UInt8 → Except PyErr (RawAudio × Nat))
    (sfReadFile : String → Except PyErr (RawAudio × Nat))
    (dataBytes : List UInt8) (filePath : String) (e eF : PyErr)
    (hb : sfRead dataBytes = .error e) (hf : sfReadFile filePath = .error eF) :
    p.load_from_binary sfRead dataBytes = .error e ∧
      p.load_from_file sfReadFile filePath = .error eF := by
  constructor
  · unfold AudioProcessor.load_from_binary
    rw [hb]
  · unfold AudioProcessor.load_from_file
    rw [hf]

theorem loader_propagates_decode_failure_witness :
    create_audio_processor.load_from_binary
        (fun _ => .error (.libsndfileError "Format not recognised")) [] =
      .error (.libsndfileError "Format not recognised") ∧
    create_audio_processor.load_from_file
        (fun _ => .error (.libsndfileError "System error")) "missing.wav" =
      .error (.libsndfileError "System error") :=
  loader_propagates_decode_failure create_audio_processor
    (fun _ => .error (.libsndfileError "Format not recognised"))
    (fun _ => .error (.libsndfileError "System error"))
    [] "missing.wav" _ _ rfl rfl

/-- C6: invoking a pipeline stage before its required predecessor has
completed fails with the ordering `RuntimeError` (the spec's
`InvalidStateError` kind); each stage raises that error exactly when its
predecessor's output is absent: `preprocess` iff no raw audio is loaded,
`chunk_audio` iff no processed audio exists, and
`generate_mel_spectrograms` iff no chunks exist. -/
theorem stage_order_errors
    (p : AudioProcessor)
    (resample : List ℚ → Nat → Nat → List ℚ)
    (melspec : List ℚ → List (List ℚ)) (logQ : ℚ → ℚ) :
    ((∃ m, p.preprocess resample = .error (.runtimeError m)) ↔
      p.rawAudio = none) ∧
    ((∃ m, p.chunk_audio = .error (.runtimeError m)) ↔
      p.processedAudio = none) ∧
    ((∃ m, p.generate_mel_spectrograms melspec logQ = .error (.runtimeError m)) ↔
      p.audioChunks = none) := by
  refine ⟨⟨?_, ?_⟩, ⟨?_, ?_⟩, ⟨?_, ?_⟩⟩
  · rintro ⟨m, hm⟩
    cases hraw : p.rawAudio with
    | none => rfl
    | some raw =>
      unfold AudioProcessor.preprocess at hm
      rw [hraw] at hm
      cases horig : p.originalSampleRate with
      | none => rw [horig] at hm; simp at hm
      | some osr => rw [horig] at hm; simp at hm
  · intro hnone
    exact ⟨_, by unfold AudioProcessor.preprocess; rw [hnone]⟩
  · rintro ⟨m, hm⟩
    cases hproc : p.processedAudio with
    | none => rfl
    | some a =>
      unfold AudioProcessor.chunk_audio at hm
      rw [hproc] at hm
      dsimp only [] at hm
      split at hm <;> simp at hm
  · intro hnone
    exact ⟨_, by unfold AudioProcessor.chunk_audio; rw [hnone]⟩
  · rintro ⟨m, hm⟩
    cases hchunks : p.audioChunks with
    | none => rfl
    | some cl =>
      unfold AudioProcessor.generate_mel_spectrograms at hm
      rw [hchunks] at hm
      dsimp only [] at hm
      cases hloop : melLoop (p.chunk_to_mel_spectrogram melspec logQ) cl with
      | ok ms => rw [hloop] at hm; simp at hm
      | error e =>
        rw [hloop] at hm
        obtain rfl : e = .runtimeError m := (Except.error.injEq _ _).mp hm
        obtain ⟨c, _, hc⟩ := melLoop_error_mem _ _ _ hloop
        obtain ⟨s, hs⟩ := chunk_to_mel_error_is_assertion p melspec logQ c _ hc
        exact PyErr.noConfusion hs
  · intro hnone
    exact ⟨_, by unfold AudioProcessor.generate_mel_spectrograms; rw [hnone]⟩

theorem stage_order_errors_witness :
    ∃ m, create_audio_processor.preprocess (fun a _ _ => a) =
      .error (.runtimeError m) :=
  ((stage_order_errors create_audio_processor (fun a _ _ => a)
      (fun _ => []) (fun x => x)).1).mpr rfl

/-- C7: for every loaded buffer whose sample rate already equals the
target rate, `preprocess` performs no resampling (the result is the same
for every resampler) and stores the downmixed signal unchanged; for a
mono buffer that stored signal is exactly the loaded one. -/
theorem preprocess_same_rate_identity
    (p : AudioProcessor) (resample : List ℚ → Nat → Nat → List ℚ)
    (raw : RawAudio) (r : Nat)
    (hraw : p.rawAudio = some raw) (horig : p.originalSampleRate = some r)
    (hrate : p.targetSampleRate = r) :
    p.preprocess resample =
      .ok { p with processedAudio := some (toMonoIfStereo raw) } ∧
    ∀ s, raw = .mono s → toMonoIfStereo raw = s := by
  constructor
  · unfold AudioProcessor.preprocess
    rw [hraw, horig]
    dsimp only []
    rw [if_neg (by simp [hrate])]
  · rintro s rfl
    rfl

theorem preprocess_same_rate_identity_witness :
    AudioProcessor.preprocess
      { create_audio_processor with
          rawAudio := some (RawAudio.mono [(1 : ℚ), 2]),
          originalSampleRate := some 16000 }
      (fun _ _ _ => []) =
    .ok { { create_audio_processor with
              rawAudio := some (RawAudio.mono [(1 : ℚ), 2]),
              originalSampleRate := some 16000 } with
          processedAudio := some (toMonoIfStereo (RawAudio.mono [(1 : ℚ), 2])) } :=
  (preprocess_same_rate_identity _ (fun _ _ _ => [])
    (RawAudio.mono [(1 : ℚ), 2]) 16000 rfl rfl rfl).1

/-- C8: the downmix step of `preprocess` turns a multi-channel buffer
into mono by taking the arithmetic mean across channels at each sample
index (same output length as input frame count), and leaves a
single-channel buffer as-is. -/
theorem downmix_mean (rows : List (List ℚ)) (s : List ℚ) :
    (toMonoIfStereo (RawAudio.multi rows)).length = rows.length ∧
    (∀ i, i < rows.length →
      (toMonoIfStereo (RawAudio.multi rows)).getD i 0 =
        (rows.getD i []).sum / ((rows.getD i []).length : ℚ)) ∧
    toMonoIfStereo (RawAudio.mono s) = s := by
  refine ⟨by simp [toMonoIfStereo], ?_, rfl⟩
  intro i hi
  exact getD_map_mean rows i hi

theorem downmix_mean_witness :
    (toMonoIfStereo (RawAudio.multi [[(1 : ℚ), 3], [2, 6]])).getD 0 0 =
      ([[(1 : ℚ), 3], [2, 6]].getD 0 []).sum /
        (([[(1 : ℚ), 3], [2, 6]].getD 0 []).length : ℚ) :=
  (downmix_mean [[(1 : ℚ), 3], [2, 6]] []).2.1 0 (by decide)

/-- C9: zero-length processed audio is handled without raising:
`chunk_audio` stores an empty frame list and `generate_mel_spectrograms`
then stores an empty tile list. -/
theorem empty_audio_pipeline
    (p : AudioProcessor) (melspec : List ℚ → List (List ℚ)) (logQ : ℚ → ℚ)
    (hproc : p.processedAudio = some []) (hcs : p.chunkSize ≠ 0) :
    ∃ p1, p.chunk_audio = .ok p1 ∧ p1.audioChunks = some [] ∧
      ∃ p2, p1.generate_mel_spectrograms melspec logQ = .ok p2 ∧
        p2.melFeatures = some [] := by
  refine ⟨{ p with audioChunks := some (chunkList [] p.chunkSize) }, ?_, rfl, ?_⟩
  · unfold AudioProcessor.chunk_audio
    rw [hproc]
    dsimp only []
    rw [if_neg hcs]
  · refine ⟨{ { p with audioChunks := some (chunkList [] p.chunkSize) } with
        melFeatures := some [] }, ?_, rfl⟩
    unfold AudioProcessor.generate_mel_spectrograms
    rfl

theorem empty_audio_pipeline_witness :
    ∃ p1, AudioProcessor.chunk_audio
        { create_audio_processor with processedAudio := some [] } = .ok p1 ∧
      p1.audioChunks = some [] ∧
      ∃ p2, p1.generate_mel_spectrograms (fun _ => []) (fun x => x) = .ok p2 ∧
        p2.melFeatures = some [] :=
  empty_audio_pipeline { create_audio_processor with processedAudio := some [] }
    (fun _ => []) (fun x => x) rfl (by decide)

/-- C10: unlike the result accessors `processed_audio`, `audio_chunks`
and `mel_features`, which raise `RuntimeError` when their stage has not
run, `duration_seconds` is total: it returns 0 when no processed audio
exists and `len(processed) / target_sample_rate` otherwise. -/
theorem duration_seconds_total (p : AudioProcessor) :
    (p.processedAudio = none →
      p.duration_seconds = 0 ∧
      ∃ m, p.processed_audio = .error (.runtimeError m)) ∧
    (∀ a, p.processedAudio = some a →
      p.duration_seconds = (a.length : ℚ) / (p.targetSampleRate : ℚ)) ∧
    (p.audioChunks = none → ∃ m, p.audio_chunks = .error (.runtimeError m)) ∧
    (p.melFeatures = none → ∃ m, p.mel_features = .error (.runtimeError m)) := by
  refine ⟨?_, ?_, ?_, ?_⟩
  · intro h
    constructor
    · unfold AudioProcessor.duration_seconds
      rw [h]
    · exact ⟨_, by unfold AudioProcessor.processed_audio; rw [h]⟩
  · intro a h
    unfold AudioProcessor.duration_seconds
    rw [h]
  · intro h
    exact ⟨_, by unfold AudioProcessor.audio_chunks; rw [h]⟩
  · intro h
    exact ⟨_, by unfold AudioProcessor.mel_features; rw [h]⟩

theorem duration_seconds_total_witness :
    create_audio_processor.duration_seconds = 0 :=
  ((duration_seconds_total create_audio_processor).1 rfl).1

end AudioPipeline
